import Mathlib

/-
Verification of the quicktype core: the type-attribute algebra
(src/TypeAttributes.ts) and the C++ reference backend bundled in the same
source file.  TypeScript values are embedded shallowly: the immutable Map
keyed by attribute kinds (whose equality is by name) becomes an association
list looked up by kind name, thrown JS exceptions become Except.error, and
the JS closure state used by setDefaultInAttributes (counting producer
invocations) becomes explicit state passing in StateM.
-/

namespace Quicktype

/-- Embedding of TypeAttributeKind<T> from src/TypeAttributes.ts.  The
constructor stores the name and the optional combine function; when the
source is handed undefined it installs a closure that raises the fatal
error "Cannot combine type attribute NAME", which we model by keeping the
Option and letting the combine wrapper below produce the error. -/
structure TypeAttributeKind (α : Type) where
  name : String
  combineFn : Option (α → α → α)

variable {α : Type}

/-- Calling kind.combine from the source: the installed function when one
was supplied, otherwise the fatal error closure installed by the
constructor. -/
def TypeAttributeKind.combine (k : TypeAttributeKind α) (a b : α) : Except String α :=
  match k.combineFn with
  | some f => Except.ok (f a b)
  | none => Except.error ("Cannot combine type attribute " ++ k.name)

/-- TypeAttributes = Map<TypeAttributeKind<any>, any>.  The immutable Map
compares keys with TypeAttributeKind.equals, which is equality of names, so
the map is embedded as an association list with lookups by kind name. -/
abbrev TypeAttributes (α : Type) := List (TypeAttributeKind α × α)

/-- The empty attribute bag from the source. -/
def emptyTypeAttributes : TypeAttributes α := []

/-- Lookup of the entry stored under a kind name (Map.get with
equality-by-name keys). -/
def findEntry (a : TypeAttributes α) (n : String) : Option (TypeAttributeKind α × α) :=
  a.find? (fun e => e.1.name == n)

/-- tryGetInAttributes: a.get(this). -/
def TypeAttributeKind.tryGetInAttributes (k : TypeAttributeKind α) (a : TypeAttributes α) :
    Option α :=
  (findEntry a k.name).map Prod.snd

/-- Map.set(key, value): the immutable Map writes [key, value] into the
slot of the equal (same-named) key, replacing the stored key object with
the incoming one (its map nodes store the entry as [key, value] on
update), or appends a fresh entry. -/
def setEntry (a : TypeAttributes α) (k : TypeAttributeKind α) (v : α) : TypeAttributes α :=
  match a with
  | [] => [(k, v)]
  | e :: rest => if e.1.name == k.name then (k, v) :: rest else e :: setEntry rest k v

/-- setInAttributes: a.set(this, value). -/
def TypeAttributeKind.setInAttributes (k : TypeAttributeKind α) (a : TypeAttributes α)
    (v : α) : TypeAttributes α :=
  setEntry a k v

/-- Map.remove(key): drop the entry stored under the kind name. -/
def removeEntry (a : TypeAttributes α) (n : String) : TypeAttributes α :=
  match a with
  | [] => []
  | e :: rest => if e.1.name == n then rest else e :: removeEntry rest n

/-- modifyInAttributes: apply modify to the current slot; an absent result
removes the kind, a present result installs it. -/
def TypeAttributeKind.modifyInAttributes (k : TypeAttributeKind α) (a : TypeAttributes α)
    (modify : Option α → Option α) : TypeAttributes α :=
  match modify (k.tryGetInAttributes a) with
  | none => removeEntry a k.name
  | some v => k.setInAttributes a v

/-- makeAttributes: the singleton bag Map([[this, value]]). -/
def TypeAttributeKind.makeAttributes (k : TypeAttributeKind α) (v : α) : TypeAttributes α :=
  [(k, v)]

/-- setDefaultInAttributes.  The source returns a unchanged when the kind
is present and otherwise calls modifyInAttributes(a, makeDefault), whose
only invocation of the producer is the single modify call; the producer is
embedded as a StateM computation so that its number of invocations is
observable in the final state. -/
def TypeAttributeKind.setDefaultInAttributes (k : TypeAttributeKind α) (a : TypeAttributes α)
    (makeDefault : StateM Nat α) : StateM Nat (TypeAttributes α) :=
  if (k.tryGetInAttributes a).isSome then pure a
  else do
    let v ← makeDefault
    pure (k.modifyInAttributes a (fun _ => some v))

/-- The argument of TypeAttributeKind.equals(other: any): either another
kind or some non-kind JS object. -/
inductive JsObject (α : Type) where
  | kindObj (k : TypeAttributeKind α)
  | otherObj (id : Nat)

/-- equals: false for anything that is not a TypeAttributeKind, and name
equality between two kinds. -/
def TypeAttributeKind.equals (k : TypeAttributeKind α) : JsObject α → Bool
  | JsObject.kindObj k2 => k.name == k2.name
  | JsObject.otherObj _ => false

/-- hashCode: hash(this.name). -/
def TypeAttributeKind.hashCode (k : TypeAttributeKind α) : UInt64 :=
  k.name.hash

/-- One step of Map.mergeWith: fold in a single entry of the other map.
The library iterates the incoming collection and updates the slot of each
incoming key, handing the merger (aa, ab, kind) the existing value, the
incoming value and the incoming key, so a name collision runs the incoming
entry's kind's combine and stores the incoming kind; a fresh name is
appended. -/
def mergeEntry (acc : TypeAttributes α) (e : TypeAttributeKind α × α) :
    Except String (TypeAttributes α) :=
  match findEntry acc e.1.name with
  | some e0 => do
    let c ← e.1.combine e0.2 e.2
    pure (setEntry acc e.1 c)
  | none => pure (acc ++ [e])

/-- first.mergeWith((aa, ab, kind) => kind.combine(aa, ab), other): fold
the other bag's entries into the first. -/
def mergeWith (first : TypeAttributes α) (other : TypeAttributes α) :
    Except String (TypeAttributes α) :=
  other.foldlM mergeEntry first

/-- combineTypeAttributes from the source: the empty Map for an empty
array, otherwise first.mergeWith(merger, ...rest). -/
def combineTypeAttributes (attributeArray : List (TypeAttributes α)) :
    Except String (TypeAttributes α) :=
  match attributeArray with
  | [] => Except.ok []
  | first :: rest => rest.foldlM mergeWith first

/-- Well-formedness of a bag as produced by the immutable Map: at most one
entry per kind name. -/
def bagWF (a : TypeAttributes α) : Prop :=
  (a.map (fun e => e.1.name)).Nodup

/-- All entries stored under a given kind name across a sequence of bags,
in input order. -/
def entriesFor (bags : List (TypeAttributes α)) (n : String) :
    List (TypeAttributeKind α × α) :=
  bags.flatten.filter (fun e => e.1.name == n)

/-- Left fold of the combine functions across a list of colliding
entries: each step applies the incoming entry's kind's combine, exactly as
the mergeWith merger does. -/
def combineValues (v : α) : List (TypeAttributeKind α × α) → Except String α
  | [] => Except.ok v
  | e :: es => do
    let c ← e.1.combine v e.2
    combineValues c es

/-- The per-name specification of combining bags: no entries means the
name is absent from the result; otherwise the result value is the left
fold over all present values in input order, each collision applying the
incoming occurrence's combine function, and it is stored under the last
occurrence's kind instance. -/
def matchSpec (entries : List (TypeAttributeKind α × α))
    (res : Option (TypeAttributeKind α × α)) : Prop :=
  match entries with
  | [] => res = none
  | e :: rest => ∃ c, combineValues e.2 rest = Except.ok c ∧
      res = some ((rest.getLastD e).1, c)

/-
Embedding of the C++ reference backend (CPlusPlus renderer, second source
part of the repository file).  Name tokens handed out by the external
naming resolver are opaque strings rendered verbatim; Sourcelike trees are
flattened to strings, issue annotations carry no text and so disappear in
the flattening; emitted blocks are modelled by the lists of the lines the
cited emit functions produce, without indentation. -/

/-- The type-graph nodes consumed through the fixed interface of ../Type:
primitives, arrays, maps, classes with ordered (propertyName, jsonKey,
propertyType) triples (the property name being the resolved name token),
and unions carrying their name token and member set in first-appearance
order with at most one null member. -/
inductive Ty where
  | anyType
  | nullType
  | boolType
  | integerType
  | doubleType
  | stringType
  | arrayType (items : Ty)
  | classType (name : String) (props : List (String × String × Ty))
  | mapType (values : Ty)
  | unionType (name : String) (members : List Ty)

/-- The kind tag of a node, as used by t.kind in the renderer. -/
def Ty.kind : Ty → String
  | anyType => "any"
  | nullType => "null"
  | boolType => "bool"
  | integerType => "integer"
  | doubleType => "double"
  | stringType => "string"
  | arrayType _ => "array"
  | classType _ _ => "class"
  | mapType _ => "map"
  | unionType _ _ => "union"

/-- Whether a node is the null primitive. -/
def Ty.isNull : Ty → Bool
  | nullType => true
  | _ => false

/-- Modelled from the spec: removeNullFromUnion lives in the out-of-scope
../Type module; per the spec's union rule, it splits a union's member set
into the presence of the null member and the non-null members, keeping
first-appearance order. -/
def removeNullFromUnion (members : List Ty) : Bool × List Ty :=
  (members.any Ty.isNull, members.filter (fun t => !t.isNull))

/-- Modelled from the spec: nullableFromUnion lives in the out-of-scope
../Type module; per the spec's union rule, a union with exactly one
non-null member beside a null member denotes that sole member made
optional, and any other union is not nullable. -/
def nullableFromUnion (members : List Ty) : Option Ty :=
  let nonNulls := members.filter (fun t => !t.isNull)
  if members.any Ty.isNull && nonNulls.length == 1 then nonNulls.head? else none

/-- ourQualifier: the generated namespace plus "::" when referenced from
inside the json namespace, nothing otherwise. -/
def ourQualifier (ns : String) (inJsonNamespace : Bool) : String :=
  if inJsonNamespace then ns ++ "::" else ""

/-- jsonQualifier: "nlohmann::" outside the json namespace. -/
def jsonQualifier (inJsonNamespace : Bool) : String :=
  if inJsonNamespace then "" else "nlohmann::"

/-- cppType: the type-mapping match of the renderer.  maybeAnnotated only
attaches a diagnostic to the "json" text for any/null, so the flattened
text is the same with or without issues. -/
def cppType (ns : String) (t : Ty) (inJsonNamespace : Bool) (withIssues : Bool) : String :=
  match t with
  | Ty.anyType => jsonQualifier inJsonNamespace ++ "json"
  | Ty.nullType => jsonQualifier inJsonNamespace ++ "json"
  | Ty.boolType => "bool"
  | Ty.integerType => "int64_t"
  | Ty.doubleType => "double"
  | Ty.stringType => "std::string"
  | Ty.arrayType items =>
    "std::vector<" ++ cppType ns items inJsonNamespace withIssues ++ ">"
  | Ty.classType nm _ => "struct " ++ ourQualifier ns inJsonNamespace ++ nm
  | Ty.mapType values =>
    "std::map<std::string, " ++ cppType ns values inJsonNamespace withIssues ++ ">"
  | Ty.unionType nm members =>
    match h : nullableFromUnion members with
    | some nt => "boost::optional<" ++ cppType ns nt inJsonNamespace withIssues ++ ">"
    | none => ourQualifier ns inJsonNamespace ++ nm
termination_by sizeOf t
decreasing_by
  all_goals simp_wf
  · rename_i nm members
    have hmem : nt ∈ members := by
      unfold nullableFromUnion at h
      by_cases hc : members.any Ty.isNull && (members.filter (fun t => !t.isNull)).length == 1
      · simp only [hc, if_true] at h
        exact (List.mem_filter.mp (List.mem_of_mem_head? h)).1
      · simp [hc] at h
    have h1 := List.sizeOf_lt_of_mem hmem
    simp
    omega

/-- cppTypeInOptional: the sole member's type for a one-element set,
otherwise boost::variant over the members' types in order, comma
separated. -/
def cppTypeInOptional (ns : String) (nonNulls : List Ty) (inJsonNamespace : Bool)
    (withIssues : Bool) : String :=
  match nonNulls with
  | [t] => cppType ns t inJsonNamespace withIssues
  | ts =>
    "boost::variant<" ++
      String.intercalate (", ") (ts.map (fun t => cppType ns t inJsonNamespace withIssues)) ++
      ">"

/-- variantType: throws for fewer than two non-null members, otherwise the
variant of the non-null members, wrapped in boost::optional when the union
has a null member. -/
def variantType (ns : String) (members : List Ty) (inJsonNamespace : Bool) :
    Except String String :=
  let hasNull := (removeNullFromUnion members).1
  let nonNulls := (removeNullFromUnion members).2
  if nonNulls.length < 2 then Except.error ("Variant not needed for less than two types.")
  else
    let variant := cppTypeInOptional ns nonNulls inJsonNamespace true
    if hasNull then Except.ok ("boost::optional<" ++ variant ++ ">")
    else Except.ok variant

/-- One hexadecimal digit. -/
def hexDigit (n : Nat) : Char :=
  if n < 10 then Char.ofNat (48 + n) else Char.ofNat (87 + (n - 10))

/-- Four hexadecimal digits of a UTF-16 code unit. -/
def hex4 (n : Nat) : String :=
  String.mk [hexDigit (n / 4096 % 16), hexDigit (n / 256 % 16),
    hexDigit (n / 16 % 16), hexDigit (n % 16)]

/-- Modelled from the spec: utf16StringEscape lives in the out-of-scope
../Support module; per the key-escaping rule, quotes, backslashes and
non-ASCII characters are escaped so the key round-trips through the
target's string-literal syntax, non-ASCII via the UTF-16 code units. -/
def escapeChar (c : Char) : String :=
  let v := c.toNat
  if v = 34 then "\\\""
  else if v = 92 then "\\\\"
  else if 32 ≤ v ∧ v < 127 then String.singleton c
  else if v < 65536 then "\\u" ++ hex4 v
  else
    "\\u" ++ hex4 (55296 + (v - 65536) / 1024) ++
      "\\u" ++ hex4 (56320 + (v - 65536) % 1024)

/-- Modelled from the spec: the escape routine applied characterwise. -/
def utf16StringEscape (s : String) : String :=
  String.join (s.toList.map escapeChar)

/-- Runtime JSON values handled by the generated code (nlohmann::json).
The numeric payload of a floating-point value is irrelevant to every claim
and floating point has no shallow embedding, so jdouble carries none. -/
inductive JValue where
  | jnull
  | jbool (b : Bool)
  | jint (n : Int)
  | jdouble
  | jstring (s : String)
  | jarray (elems : List JValue)
  | jobject (fields : List (String × JValue))

/-- nlohmann is_boolean. -/
def JValue.isBoolean : JValue → Bool
  | jbool _ => true
  | _ => false

/-- nlohmann is_number_integer. -/
def JValue.isNumberInteger : JValue → Bool
  | jint _ => true
  | _ => false

/-- nlohmann is_number: any numeric value, integral or floating. -/
def JValue.isNumber : JValue → Bool
  | jint _ => true
  | jdouble => true
  | _ => false

/-- nlohmann is_string. -/
def JValue.isString : JValue → Bool
  | jstring _ => true
  | _ => false

/-- nlohmann is_object. -/
def JValue.isObject : JValue → Bool
  | jobject _ => true
  | _ => false

/-- nlohmann is_array. -/
def JValue.isArray : JValue → Bool
  | jarray _ => true
  | _ => false

/-- j.find(property): the value stored under a key of an object, absent
for a missing key and for non-objects. -/
def JValue.objFind (j : JValue) (key : String) : Option JValue :=
  match j with
  | jobject fields => (fields.find? (fun kv => kv.1 == key)).map Prod.snd
  | _ => none

/-- Semantics of the emitted get_untyped helper (its body is a literal of
emitSourceStructure): a present key yields the stored value, a missing key
yields json(), the empty (null) value. -/
def get_untyped (j : JValue) (property : String) : JValue :=
  match j.objFind property with
  | some v => v
  | none => JValue.jnull

/-- Semantics of the emitted get_optional helper together with the emitted
adl_serializer for boost::optional (both bodies are literals of the
renderer): a missing key yields the empty optional, a stored null yields
the empty optional, and any other stored value is decoded into a present
optional. -/
def get_optional (j : JValue) (property : String) : Option JValue :=
  match j.objFind property with
  | some JValue.jnull => none
  | some v => some v
  | none => none

/-- Semantics of _j.at(property) in the emitted strict reads: the stored
value, or the hard out_of_range failure on a missing key. -/
def jsonAt (j : JValue) (property : String) : Except String JValue :=
  match j.objFind property with
  | some v => Except.ok v
  | none => Except.error ("out_of_range: key not found")

/-- The renderer's first test on a property type in from_json: a union
with a null member is read through get_optional. -/
def isPermissiveOptional (t : Ty) : Bool :=
  match t with
  | Ty.unionType _ members => (removeNullFromUnion members).1
  | _ => false

/-- The renderer's second test: t.kind === "null" or "any" is read through
get_untyped. -/
def isUntypedRead (t : Ty) : Bool :=
  t.kind == "null" || t.kind == "any"

/-- The from_json line emitted for one property by emitClassFunctions,
following the source's dispatch: optional union, then any/null, then the
strict at(...).get<T>() read. -/
def classFromJsonLine (ns : String) (nm : String) (json : String) (t : Ty) : String :=
  if isPermissiveOptional t then
    match t with
    | Ty.unionType _ members =>
      "_x." ++ nm ++ " = " ++ ourQualifier ns true ++ "get_optional<" ++
        cppTypeInOptional ns ((removeNullFromUnion members).2) true false ++
        ">(_j, \"" ++ utf16StringEscape json ++ "\");"
    | _ => ""
  else if isUntypedRead t then
    "_x." ++ nm ++ " = " ++ ourQualifier ns true ++ "get_untyped(_j, \"" ++
      utf16StringEscape json ++ "\");"
  else
    "_x." ++ nm ++ " = _j.at(\"" ++ utf16StringEscape json ++ "\").get<" ++
      cppType ns t true false ++ ">();"

/-- The body of the emitted from_json for a class: one line per property,
in declared order (forEachProperty with "none" blanks). -/
def classFromJsonLines (ns : String) (props : List (String × String × Ty)) : List String :=
  props.map (fun p => classFromJsonLine ns p.1 p.2.1 p.2.2)

/-- Runtime semantics of one emitted property read.  The decoded field
value is an optional JValue so that an absent boost::optional is
representable; coercion of a strictly read value into the mapped C++ type
is abstracted by the coerce argument, whose failures are hard failures. -/
def readProperty (coerce : Ty → JValue → Except String JValue) (j : JValue)
    (json : String) (t : Ty) : Except String (Option JValue) :=
  if isPermissiveOptional t then Except.ok (get_optional j json)
  else if isUntypedRead t then Except.ok (some (get_untyped j json))
  else (jsonAt j json).bind (fun v => (coerce t v).map some)

/-- Runtime semantics of the emitted from_json for a class: the property
reads run in declared order and any failure aborts with no record. -/
def classFromJsonSem (coerce : Ty → JValue → Except String JValue) (j : JValue)
    (props : List (String × String × Ty)) : Except String (List (Option JValue)) :=
  props.mapM (fun p => readProperty coerce j p.2.1 p.2.2)

/-- The body of the emitted to_json for a class: the explicit empty object
for a class without properties, otherwise the json object literal listing
the escaped keys with their fields in declared order. -/
def classToJsonLines (props : List (String × String × Ty)) : List String :=
  if props.isEmpty then ["_j = json::object();"]
  else
    ["_j = json" ++ "\x7b" ++
      String.intercalate (", ")
        (props.map (fun p => "\x7b\"" ++ utf16StringEscape p.2.1 ++ "\", _x." ++ p.1 ++ "\x7d")) ++
      "\x7d;"]

/-- Runtime semantics of the emitted to_json for a class: json::object()
for a class without properties, otherwise the object pairing each source
key with the recursively encoded field value (enc maps a property name to
the encoding of the field held under it). -/
def classToJsonSem (props : List (String × String × Ty)) (enc : String → JValue) : JValue :=
  if props.isEmpty then JValue.jobject []
  else JValue.jobject (props.map (fun p => (p.2.1, enc p.1)))

/-- The fixed predicate table functionForKind of emitUnionFunctions. -/
def functionForKind : List (String × String) :=
  [("bool", "is_boolean"), ("integer", "is_number_integer"), ("double", "is_number"),
   ("string", "is_string"), ("class", "is_object"), ("map", "is_object"),
   ("array", "is_array")]

/-- One iteration of the emission loop of the union from_json: a table row
whose kind has no member is skipped, otherwise the test line and the
decode line are appended and the onFirst flag is cleared. -/
def unionBranchStep (ns : String) (nonNulls : List Ty) (acc : List String × Bool)
    (kf : String × String) : List String × Bool :=
  match nonNulls.find? (fun t => t.kind == kf.1) with
  | none => acc
  | some t =>
    (acc.1 ++
      [(if acc.2 then "if" else "else if") ++ " (_j." ++ kf.2 ++ "())",
       "_x = _j.get<" ++ cppType ns t true false ++ ">();"],
     false)

/-- The body of the emitted from_json for a union: the if/else chain over
the table rows whose kinds occur among the non-null members, closed by the
throwing else. -/
def unionFromJsonLines (ns : String) (members : List Ty) : List String :=
  (functionForKind.foldl (unionBranchStep ns ((removeNullFromUnion members).2)) ([], true)).1 ++
    ["else throw \"Could not deserialize\";"]

/-- The decode branches of the emitted union from_json: one branch per
table row whose kind occurs among the non-null members, holding the test
function and the first member of that kind. -/
def unionDecodeBranches (nonNulls : List Ty) : List (String × Ty) :=
  functionForKind.filterMap
    (fun kf => (nonNulls.find? (fun t => t.kind == kf.1)).map (fun t => (kf.2, t)))

/-- The if/else chain text generated from a branch list; the flag tells
whether the next branch is the first (plain "if"). -/
def branchIfChainLines (ns : String) : Bool → List (String × Ty) → List String
  | _, [] => []
  | first, b :: bs =>
    ((if first then "if" else "else if") ++ " (_j." ++ b.1 ++ "())") ::
      ("_x = _j.get<" ++ cppType ns b.2 true false ++ ">();") ::
      branchIfChainLines ns false bs

/-- The nlohmann test function named by a table row. -/
def testFunc (func : String) (j : JValue) : Bool :=
  if func = "is_boolean" then j.isBoolean
  else if func = "is_number_integer" then j.isNumberInteger
  else if func = "is_number" then j.isNumber
  else if func = "is_string" then j.isString
  else if func = "is_object" then j.isObject
  else if func = "is_array" then j.isArray
  else false

/-- Runtime semantics of an emitted if/else chain: the first branch whose
test accepts the value decodes into its member type, and falling through
every branch is the hard decode failure of the throwing else. -/
def runBranches (branches : List (String × Ty)) (j : JValue) : Except String Ty :=
  match branches with
  | [] => Except.error ("Could not deserialize")
  | (func, t) :: rest => if testFunc func j then Except.ok t else runBranches rest j

/-- Runtime semantics of the emitted from_json for a union: run the
branches over the non-null members. -/
def unionFromJsonSem (members : List Ty) (j : JValue) : Except String Ty :=
  runBranches (unionDecodeBranches ((removeNullFromUnion members).2)) j

/-- Follows the spec's words (refinement reference): the fixed, ordered
predicate table boolean, integer, double, string, object-as-class,
object-as-map, array. -/
def specPredicateTable : List (String × (JValue → Bool)) :=
  [("bool", JValue.isBoolean), ("integer", JValue.isNumberInteger),
   ("double", JValue.isNumber), ("string", JValue.isString),
   ("class", JValue.isObject), ("map", JValue.isObject),
   ("array", JValue.isArray)]

/-- Follows the spec's words (refinement reference): test the predicate
table against the value in priority order, restricted to kinds present
among the non-null members; the first match decodes the first member of
its kind and no match is the hard decode failure. -/
def specPriorityDecode (members : List Ty) (j : JValue) : Except String Ty :=
  match specPredicateTable.find?
      (fun kp => ((removeNullFromUnion members).2).any (fun t => t.kind == kp.1) &&
        kp.2 j) with
  | some kp =>
    match ((removeNullFromUnion members).2).find? (fun t => t.kind == kp.1) with
    | some t => Except.ok t
    | none => Except.error ("Could not deserialize")
  | none => Except.error ("Could not deserialize")

/-- One iteration of the emission loop of the union to_json switch: the
case label carrying the running ordinal, the boost::get re-encode line and
the break. -/
def unionCaseStep (ns : String) (acc : List String × Nat) (t : Ty) : List String × Nat :=
  (acc.1 ++
    ["case " ++ toString acc.2 ++ ":",
     "_j = boost::get<" ++ cppType ns t true false ++ ">(_x);",
     "break;"],
   acc.2 + 1)

/-- The body of the emitted switch (_x.which()) of the union to_json: the
numbered cases over the non-null members in order, closed by the throwing
default. -/
def unionToJsonLines (ns : String) (members : List Ty) : List String :=
  (((removeNullFromUnion members).2).foldl (unionCaseStep ns) ([], 0)).1 ++
    ["default: throw \"This should not happen\";"]

/-- Closed form of the switch cases from a starting ordinal: case i for
the i-th member in member-set order. -/
def switchCasesFrom (ns : String) (i : Nat) : List Ty → List String
  | [] => []
  | t :: ts =>
    ("case " ++ toString i ++ ":") ::
      ("_j = boost::get<" ++ cppType ns t true false ++ ">(_x);") ::
      "break;" ::
      switchCasesFrom ns (i + 1) ts

/-- emitUnionTypedefs: the typedef line binding the union's name to its
variant type. -/
def unionTypedefLine (ns : String) (nm : String) (members : List Ty) :
    Except String String :=
  (variantType ns members false).map (fun v => "typedef " ++ v ++ " " ++ nm ++ ";")

/-- Concrete kind used by witnesses: the description kind with set-union
replaced by addition over Nat values. -/
def dkW : TypeAttributeKind Nat :=
  { name := "description", combineFn := some (fun a b => a + b) }

/-- A second instance with the same name but another combine function. -/
def dkW2 : TypeAttributeKind Nat :=
  { name := "description", combineFn := some (fun a b => a * b) }

/-- A kind instance with the same name and no combine function. -/
def dkW3 : TypeAttributeKind Nat :=
  { name := "description", combineFn := none }

/-- Concrete bag sequence used by the combineTypeAttributes witness. -/
def bagsW : List (TypeAttributes Nat) :=
  [[(dkW, 1)], [(dkW2, 2)]]

/-- The combined bag of bagsW: the collision runs the incoming instance's
combine (multiplication) and stores the incoming kind. -/
def attrsW : TypeAttributes Nat :=
  [(dkW2, 2)]

/-- An uncombinable kind used by the fatal-merge witness. -/
def kuW : TypeAttributeKind Nat :=
  { name := "uncombinable", combineFn := none }

/-- Concrete union member sets used by witnesses. -/
def membersOptW : List Ty := [Ty.stringType, Ty.nullType]

/-- A two-member union without null. -/
def membersVarW : List Ty := [Ty.boolType, Ty.stringType]

/-- The spec's three-member union, with the array member in the middle. -/
def membersArrW : List Ty := [Ty.integerType, Ty.arrayType Ty.boolType, Ty.stringType]

/-- A union holding a class member and a map member. -/
def membersCMW : List Ty := [Ty.classType ("c") [], Ty.mapType Ty.stringType]

/-- A one-property class whose property is strictly read. -/
def propsStrictW : List (String × String × Ty) := [("f1", "k1", Ty.stringType)]

/-- The identity coercion used by witnesses. -/
def coerceW : Ty → JValue → Except String JValue := fun _ v => Except.ok v

/-
Theorems.  Generic association-list lemmas first, then one theorem per
claim, each with its witness where the statement carries hypotheses.
-/

theorem find?_eq_head_filter {β : Type} (l : List β) (p : β → Bool) :
    l.find? p = (l.filter p).head? := by
  induction l with
  | nil => rfl
  | cons a as ih =>
    cases hp : p a
    · simp only [List.find?_cons, List.filter_cons, hp]
      exact ih
    · simp only [List.find?_cons, List.filter_cons, hp]
      simp

theorem tryGet_set_same_name (k1 k2 : TypeAttributeKind α) (h : k1.name = k2.name)
    (a : TypeAttributes α) (v : α) :
    k2.tryGetInAttributes (k1.setInAttributes a v) = some v := by
  unfold TypeAttributeKind.tryGetInAttributes TypeAttributeKind.setInAttributes
  rw [← h]
  induction a with
  | nil => simp [setEntry, findEntry]
  | cons e rest ih =>
    by_cases he : e.1.name == k1.name
    · simp [setEntry, he, findEntry]
    · simp only [Bool.not_eq_true] at he
      simp [setEntry, he, findEntry] at ih ⊢
      exact ih

/-- C8: setDefaultInAttributes returns the bag unchanged without invoking
the producer when the kind is present, and otherwise installs the
producer's result with exactly one producer invocation; in particular the
producer runs at most once per invocation. -/
theorem setDefault_spec (k : TypeAttributeKind α) (a : TypeAttributes α) (v : α) (n : Nat) :
    k.setDefaultInAttributes a (fun m => (v, m + 1)) n =
      (if (k.tryGetInAttributes a).isSome then (a, n)
       else (k.setInAttributes a v, n + 1)) ∧
    (k.setDefaultInAttributes a (fun m => (v, m + 1)) n).2 ≤ n + 1 := by
  cases hIs : (k.tryGetInAttributes a).isSome with
  | true =>
    constructor
    · simp [TypeAttributeKind.setDefaultInAttributes, hIs, pure, StateT.pure]
    · simp [TypeAttributeKind.setDefaultInAttributes, hIs, pure, StateT.pure]
  | false =>
    have hnone : k.tryGetInAttributes a = none := by
      cases hg : k.tryGetInAttributes a
      · rfl
      · rw [hg] at hIs; simp at hIs
    constructor
    · simp [TypeAttributeKind.setDefaultInAttributes, hIs, bind, StateT.bind, pure,
        StateT.pure, TypeAttributeKind.modifyInAttributes, hnone]
    · simp [TypeAttributeKind.setDefaultInAttributes, hIs, bind, StateT.bind, pure,
        StateT.pure, TypeAttributeKind.modifyInAttributes, hnone]

/-- C9: equality of attribute-kind descriptors is by name alone: two kind
instances with equal names are interchangeable as map keys (a value set
under one is retrieved under the other), their hash codes agree, two
same-named kinds are equal, and a kind never equals a non-kind object. -/
theorem kindEquality_spec (k1 k2 : TypeAttributeKind α) (h : k1.name = k2.name) :
    (∀ (a : TypeAttributes α) (v : α),
      k2.tryGetInAttributes (k1.setInAttributes a v) = some v) ∧
    k1.hashCode = k2.hashCode ∧
    k1.equals (JsObject.kindObj k2) = true ∧
    (∀ i, k1.equals (JsObject.otherObj i) = false) := by
  refine ⟨fun a v => tryGet_set_same_name k1 k2 h a v, ?_, ?_, fun i => rfl⟩
  · simp [TypeAttributeKind.hashCode, h]
  · simp [TypeAttributeKind.equals, h]

theorem except_bind_ok {ε β γ : Type} (a : β) (f : β → Except ε γ) :
    (Except.ok a >>= f : Except ε γ) = f a := rfl

theorem except_bind_err {ε β γ : Type} (msg : ε) (f : β → Except ε γ) :
    ((Except.error msg : Except ε β) >>= f : Except ε γ) = Except.error msg := rfl

theorem except_pure_eq {ε β : Type} (a : β) : (pure a : Except ε β) = Except.ok a := rfl

theorem findEntry_append (a b : TypeAttributes α) (n : String) :
    findEntry (a ++ b) n = (findEntry a n).or (findEntry b n) := by
  unfold findEntry
  rw [List.find?_append]

theorem findEntry_setEntry_other (a : TypeAttributes α) (k : TypeAttributeKind α) (v : α)
    (n : String) (h : ¬(k.name = n)) : findEntry (setEntry a k v) n = findEntry a n := by
  induction a with
  | nil =>
    simp only [setEntry, findEntry, List.find?_cons, List.find?_nil]
    have : (k.name == n) = false := by simp [h]
    simp [this]
  | cons e rest ih =>
    by_cases he : e.1.name == k.name
    · have hkn : (k.name == n) = false := by simp [h]
      have hen : (e.1.name == n) = false := by
        have : e.1.name = k.name := by simpa using he
        simp [this, h]
      simp only [setEntry, he, if_true, findEntry, List.find?_cons]
      simp [hkn, hen]
    · simp only [setEntry, he, if_false, Bool.false_eq_true, findEntry, List.find?_cons]
      cases hp : e.1.name == n
      · exact ih
      · rfl

theorem findEntry_setEntry_self (a : TypeAttributes α) (n : String) :
    ∀ (k0 : TypeAttributeKind α) (v0 : α) (k : TypeAttributeKind α) (c : α),
      findEntry a n = some (k0, v0) → k.name = n →
      findEntry (setEntry a k c) n = some (k, c) := by
  induction a with
  | nil =>
    intro k0 v0 k c hfind hk
    cases hfind
  | cons e rest ih =>
    intro k0 v0 k c hfind hk
    cases hp : e.1.name == n with
    | true =>
      have hek : (e.1.name == k.name) = true := by rw [hk]; exact hp
      simp only [setEntry, hek, if_true]
      simp [findEntry, List.find?_cons, hk]
    | false =>
      have hrest : findEntry rest n = some (k0, v0) := by
        simpa [findEntry, List.find?_cons, hp] using hfind
      have hek : (e.1.name == k.name) = false := by rw [hk]; exact hp
      simp only [setEntry, hek, Bool.false_eq_true, if_false]
      simp only [findEntry, List.find?_cons, hp]
      exact ih k0 v0 k c hrest hk

theorem mergeEntry_ok_present {acc acc1 : TypeAttributes α} {e : TypeAttributeKind α × α}
    {n : String} (hok : mergeEntry acc e = Except.ok acc1)
    (hp : (findEntry acc n).isSome = true) : (findEntry acc1 n).isSome = true := by
  obtain ⟨e0, hfe0⟩ := Option.isSome_iff_exists.mp hp
  unfold mergeEntry at hok
  split at hok
  case h_1 e1 hfe1 =>
    cases hc : e.1.combine e1.2 e.2 with
    | error msg =>
      rw [hc, except_bind_err] at hok
      cases hok
    | ok c =>
      rw [hc, except_bind_ok, except_pure_eq] at hok
      cases hok
      by_cases hn : e.1.name = n
      · rw [findEntry_setEntry_self acc n e0.1 e0.2 e.1 c hfe0 hn]
        rfl
      · rw [findEntry_setEntry_other acc e.1 c n hn]
        rw [hfe0]
        rfl
  case h_2 hfe1 =>
    rw [except_pure_eq] at hok
    cases hok
    rw [findEntry_append, hfe0]
    rfl

theorem mergeEntry_uncombinable_err {acc : TypeAttributes α} {e : TypeAttributeKind α × α}
    {n : String} (hp : (findEntry acc n).isSome = true) (he : e.1.name = n)
    (hnone : e.1.combineFn = none) (acc1 : TypeAttributes α) :
    mergeEntry acc e ≠ Except.ok acc1 := by
  obtain ⟨e0, hfe0⟩ := Option.isSome_iff_exists.mp hp
  unfold mergeEntry
  rw [he, hfe0]
  show (do
    let c ← e.1.combine e0.2 e.2
    pure (setEntry acc e.1 c) : Except String (TypeAttributes α)) ≠ Except.ok acc1
  rw [show e.1.combine e0.2 e.2 = Except.error ("Cannot combine type attribute " ++ e.1.name)
    from by simp [TypeAttributeKind.combine, hnone]]
  rw [except_bind_err]
  simp

theorem fold_uncombinable {n : String} :
    ∀ (l : List (TypeAttributeKind α × α)) (acc : TypeAttributes α),
      (findEntry acc n).isSome = true →
      (∃ e ∈ l, e.1.name = n ∧ e.1.combineFn = none) →
      ∀ r, l.foldlM mergeEntry acc ≠ Except.ok r := by
  intro l
  induction l with
  | nil =>
    rintro acc _ ⟨e, hmem, _⟩ r
    cases hmem
  | cons e rest ih =>
    rintro acc hp ⟨e2, he2mem, he2n, he2none⟩ r
    rw [List.foldlM_cons]
    cases hme : mergeEntry acc e with
    | error msg =>
      rw [except_bind_err]
      simp
    | ok acc1 =>
      rcases List.mem_cons.mp he2mem with he2 | he2
      · subst he2
        exact absurd hme (mergeEntry_uncombinable_err hp he2n he2none acc1)
      · rw [except_bind_ok]
        exact ih acc1 (mergeEntry_ok_present hme hp) ⟨e2, he2, he2n, he2none⟩ r

theorem combineValues_append (es : List (TypeAttributeKind α × α)) :
    ∀ (v : α) (e : TypeAttributeKind α × α),
      combineValues v (es ++ [e]) =
        (combineValues v es) >>= (fun c => e.1.combine c e.2) := by
  induction es with
  | nil =>
    intro v e
    show combineValues v [e] = (Except.ok v) >>= (fun c => e.1.combine c e.2)
    rw [except_bind_ok]
    show (do
      let c ← e.1.combine v e.2
      combineValues c [] : Except String α) = e.1.combine v e.2
    cases hc : e.1.combine v e.2 with
    | error msg => simp only [except_bind_err]
    | ok c => simp only [except_bind_ok]; rfl
  | cons u us ih =>
    intro v e
    show (do
      let c ← u.1.combine v u.2
      combineValues c (us ++ [e]) : Except String α) =
      (do
        let c ← u.1.combine v u.2
        combineValues c us : Except String α) >>= (fun c => e.1.combine c e.2)
    cases hc : u.1.combine v u.2 with
    | error msg => simp only [except_bind_err]
    | ok c => simp only [except_bind_ok]; exact ih c e

theorem getLastD_append_single {β : Type} (l : List β) :
    ∀ (d x : β), (l ++ [x]).getLastD d = x := by
  induction l with
  | nil =>
    intro d x
    rfl
  | cons a l ih =>
    intro d x
    show (a :: (l ++ [x])).getLastD d = x
    rw [List.getLastD_cons]
    exact ih a x

theorem mergeEntry_matchSpec {acc acc1 : TypeAttributes α} {e : TypeAttributeKind α × α}
    (hok : mergeEntry acc e = Except.ok acc1)
    (E : String → List (TypeAttributeKind α × α))
    (hE : ∀ n, matchSpec (E n) (findEntry acc n)) :
    ∀ n, matchSpec (E n ++ (if e.1.name == n then [e] else [])) (findEntry acc1 n) := by
  intro n
  unfold mergeEntry at hok
  split at hok
  case h_1 e0 hfe =>
    by_cases hn : e.1.name = n
    · have hifn : (e.1.name == n) = true := by simp [hn]
      rw [hifn, if_pos rfl]
      have hfen : findEntry acc n = some e0 := by rw [← hn]; exact hfe
      have hEn := hE n
      cases hEn2 : E n with
      | nil =>
        rw [hEn2] at hEn
        rw [show matchSpec ([] : List (TypeAttributeKind α × α)) (findEntry acc n) =
          (findEntry acc n = none) from rfl, hfen] at hEn
        cases hEn
      | cons p rest =>
        rw [hEn2] at hEn
        obtain ⟨c0, hcv, heq⟩ := hEn
        rw [hfen] at heq
        have he02 : e0.2 = c0 := by
          have := congrArg (fun o => (Option.map Prod.snd o).getD c0) heq
          simpa using this
        cases hcomb : e.1.combine c0 e.2 with
        | error msg =>
          rw [he02, hcomb, except_bind_err] at hok
          cases hok
        | ok c =>
          rw [he02, hcomb, except_bind_ok, except_pure_eq] at hok
          cases hok
          refine ⟨c, ?_, ?_⟩
          · simp only [List.append_eq]
            rw [combineValues_append rest p.2 e, hcv, except_bind_ok]
            exact hcomb
          · simp only [List.append_eq]
            rw [getLastD_append_single rest p e]
            exact findEntry_setEntry_self acc n e0.1 e0.2 e.1 c hfen hn
    · have hifn : (e.1.name == n) = false := by simp [hn]
      rw [hifn]
      simp only [Bool.false_eq_true, if_false, List.append_nil]
      cases hcomb : e.1.combine e0.2 e.2 with
      | error msg =>
        rw [hcomb, except_bind_err] at hok
        cases hok
      | ok c =>
        rw [hcomb, except_bind_ok, except_pure_eq] at hok
        cases hok
        rw [findEntry_setEntry_other acc e.1 c n hn]
        exact hE n
  case h_2 hfe =>
    rw [except_pure_eq] at hok
    cases hok
    by_cases hn : e.1.name = n
    · have hifn : (e.1.name == n) = true := by simp [hn]
      rw [hifn, if_pos rfl]
      have hfen : findEntry acc n = none := by rw [← hn]; exact hfe
      have hEn := hE n
      cases hEn2 : E n with
      | cons p rest =>
        rw [hEn2] at hEn
        obtain ⟨c0, hcv, heq⟩ := hEn
        rw [hfen] at heq
        cases heq
      | nil =>
        refine ⟨e.2, rfl, ?_⟩
        rw [findEntry_append, hfen]
        show findEntry [e] n = some (e.1, e.2)
        simp [findEntry, List.find?_cons, hifn]
    · have hifn : (e.1.name == n) = false := by simp [hn]
      rw [hifn]
      simp only [Bool.false_eq_true, if_false, List.append_nil]
      rw [findEntry_append]
      have : findEntry [e] n = none := by
        simp [findEntry, List.find?_cons, hifn]
      rw [this]
      rw [show (findEntry acc n).or none = findEntry acc n from by
        cases findEntry acc n <;> rfl]
      exact hE n

theorem mergeList_matchSpec :
    ∀ (l : List (TypeAttributeKind α × α)) (acc acc1 : TypeAttributes α),
      l.foldlM mergeEntry acc = Except.ok acc1 →
      ∀ E : String → List (TypeAttributeKind α × α),
        (∀ n, matchSpec (E n) (findEntry acc n)) →
        ∀ n, matchSpec (E n ++ l.filter (fun e => e.1.name == n)) (findEntry acc1 n) := by
  intro l
  induction l with
  | nil =>
    intro acc acc1 hok E hE n
    have : acc = acc1 := by
      have : (Except.ok acc : Except String (TypeAttributes α)) = Except.ok acc1 := hok
      cases this
      rfl
    subst this
    simpa using hE n
  | cons e rest ih =>
    intro acc acc1 hok E hE n
    rw [List.foldlM_cons] at hok
    cases hme : mergeEntry acc e with
    | error msg =>
      rw [hme, except_bind_err] at hok
      cases hok
    | ok accm =>
      rw [hme, except_bind_ok] at hok
      have hstep := mergeEntry_matchSpec hme E hE
      have hres := ih accm acc1 hok
        (fun m => E m ++ (if e.1.name == m then [e] else [])) hstep n
      rw [List.append_assoc] at hres
      have hfc : (if e.1.name == n then [e] else []) ++
          rest.filter (fun x => x.1.name == n) =
          (e :: rest).filter (fun x => x.1.name == n) := by
        rw [List.filter_cons]
        cases hp : e.1.name == n
        · simp [hp]
        · simp [hp]
      rw [hfc] at hres
      exact hres

theorem mergeBags_matchSpec :
    ∀ (bags : List (TypeAttributes α)) (acc acc1 : TypeAttributes α),
      bags.foldlM mergeWith acc = Except.ok acc1 →
      ∀ E : String → List (TypeAttributeKind α × α),
        (∀ n, matchSpec (E n) (findEntry acc n)) →
        ∀ n, matchSpec (E n ++ entriesFor bags n) (findEntry acc1 n) := by
  intro bags
  induction bags with
  | nil =>
    intro acc acc1 hok E hE n
    have : acc = acc1 := by
      have : (Except.ok acc : Except String (TypeAttributes α)) = Except.ok acc1 := hok
      cases this
      rfl
    subst this
    simpa [entriesFor] using hE n
  | cons b rest ih =>
    intro acc acc1 hok E hE n
    rw [List.foldlM_cons] at hok
    cases hmw : mergeWith acc b with
    | error msg =>
      rw [hmw, except_bind_err] at hok
      cases hok
    | ok accm =>
      rw [hmw, except_bind_ok] at hok
      have hstep := mergeList_matchSpec b acc accm hmw E hE
      have hres := ih accm acc1 hok
        (fun m => E m ++ b.filter (fun e => e.1.name == m)) hstep n
      rw [List.append_assoc] at hres
      have hfc : b.filter (fun e => e.1.name == n) ++ entriesFor rest n =
          entriesFor (b :: rest) n := by
        simp [entriesFor, List.filter_append]
      rw [hfc] at hres
      exact hres

theorem bagWF_matchSpec (a : TypeAttributes α) (hwf : bagWF a) (n : String) :
    matchSpec (a.filter (fun e => e.1.name == n)) (findEntry a n) := by
  have hhead : findEntry a n = (a.filter (fun e => e.1.name == n)).head? :=
    find?_eq_head_filter a (fun e => e.1.name == n)
  cases hf : a.filter (fun e => e.1.name == n) with
  | nil =>
    show findEntry a n = none
    rw [hhead, hf]
    rfl
  | cons p rest =>
    obtain ⟨k, v⟩ := p
    have hknv : k.name = n := by
      have hmem : (k, v) ∈ a.filter (fun e => e.1.name == n) := by
        rw [hf]; exact List.mem_cons_self _ _
      have := List.of_mem_filter hmem
      simpa using this
    have hrest : rest = [] := by
      cases hr : rest with
      | nil => rfl
      | cons q r2 =>
        exfalso
        have hsub : List.Sublist
            ((a.filter (fun e => e.1.name == n)).map (fun e => e.1.name))
            (a.map (fun e => e.1.name)) :=
          List.Sublist.map _ (List.filter_sublist a)
        have hnodup := hwf.sublist hsub
        rw [hf, hr] at hnodup
        have hqn : q.1.name = n := by
          have hmem : q ∈ a.filter (fun e => e.1.name == n) := by
            rw [hf, hr]
            exact List.mem_cons_of_mem _ (List.mem_cons_self _ _)
          have := List.of_mem_filter hmem
          simpa using this
        simp only [List.map_cons, List.nodup_cons] at hnodup
        apply hnodup.1
        rw [hknv, hqn]
        exact List.mem_cons_self _ _
    subst hrest
    refine ⟨v, rfl, ?_⟩
    rw [hhead, hf]
    rfl

/-- C1: combineTypeAttributes is a left-fold union: the empty input gives
the empty bag, a one-element input gives that bag unchanged, and for any
successfully combined well-formed bag sequence and any kind name, a kind
present in exactly one bag passes through unchanged while a kind present
in several bags yields the left fold of the kind's combine function across
all present values in input order — each collision step running the
incoming occurrence's combine and storing the incoming kind instance, as
the immutable Map's mergeWith does. -/
theorem combineTypeAttributes_spec :
    (combineTypeAttributes ([] : List (TypeAttributes α)) = Except.ok []) ∧
    (∀ a : TypeAttributes α, combineTypeAttributes [a] = Except.ok a) ∧
    (∀ (bags : List (TypeAttributes α)) (r : TypeAttributes α),
      (∀ b ∈ bags, bagWF b) →
      combineTypeAttributes bags = Except.ok r →
      ∀ n, matchSpec (entriesFor bags n) (findEntry r n)) := by
  refine ⟨rfl, fun a => rfl, ?_⟩
  intro bags r hwf hok n
  cases bags with
  | nil =>
    have : ([] : TypeAttributes α) = r := by
      have : (Except.ok [] : Except String (TypeAttributes α)) = Except.ok r := hok
      cases this
      rfl
    subst this
    show findEntry ([] : TypeAttributes α) n = none
    rfl
  | cons first rest =>
    have hbase : ∀ m, matchSpec (first.filter (fun e => e.1.name == m))
        (findEntry first m) :=
      fun m => bagWF_matchSpec first (hwf first (List.mem_cons_self _ _)) m
    have h2 := mergeBags_matchSpec rest first r hok
      (fun m => first.filter (fun e => e.1.name == m)) hbase n
    have hfc : entriesFor (first :: rest) n =
        first.filter (fun e => e.1.name == n) ++ entriesFor rest n := by
      simp [entriesFor, List.filter_append]
    rw [hfc]
    exact h2

/-- Witness for C1: two bags holding values under the description name
through instances with different combine functions; the program runs the
incoming instance's combine (1 * 2) and stores the incoming kind. -/
theorem combineTypeAttributes_spec_witness :
    (∀ b ∈ bagsW, bagWF b) ∧
    matchSpec (entriesFor bagsW ("description")) (findEntry attrsW ("description")) := by
  have hwf : ∀ b ∈ bagsW, bagWF b := by
    intro b hb
    rcases List.mem_cons.mp hb with h | h
    · subst h
      simp [bagWF]
    · rcases List.mem_cons.mp h with h2 | h2
      · subst h2
        simp [bagWF]
      · cases h2
  refine ⟨hwf, ?_⟩
  exact (combineTypeAttributes_spec.2.2 bagsW attrsW hwf rfl) ("description")

/-- C7: for a kind created without a combine function, merging two values
under it is a fatal error: with the kind's name already present in the
first bag and a value held under the uncombinable kind in the second, the
mergeWith merger calls the incoming kind's panic closure, so
combineTypeAttributes aborts with an error and never resolves the
collision silently. -/
theorem uncombinable_merge_fatal (a b : TypeAttributes α) (ku : TypeAttributeKind α) (w : α)
    (hfa : (findEntry a ku.name).isSome = true)
    (hnone : ku.combineFn = none)
    (hb : (ku, w) ∈ b) :
    ∃ msg, combineTypeAttributes [a, b] = Except.error msg := by
  have hne := fold_uncombinable b a hfa ⟨(ku, w), hb, rfl, hnone⟩
  show ∃ msg, [b].foldlM mergeWith a = Except.error msg
  rw [List.foldlM_cons]
  cases hmw : mergeWith a b with
  | error msg => exact ⟨msg, by simp [Except.bind]⟩
  | ok r => exact absurd hmw (hne r)

/-- Witness for C7: two singleton bags holding values 1 and 2 under the
same uncombinable kind instance. -/
theorem uncombinable_merge_fatal_witness :
    (findEntry (kuW.makeAttributes 1) kuW.name).isSome = true ∧
    kuW.combineFn = none ∧
    (kuW, 2) ∈ kuW.makeAttributes 2 ∧
    ∃ msg, combineTypeAttributes [kuW.makeAttributes 1, kuW.makeAttributes 2] =
      Except.error msg := by
  refine ⟨rfl, rfl, by simp [TypeAttributeKind.makeAttributes], ?_⟩
  exact uncombinable_merge_fatal (kuW.makeAttributes 1) (kuW.makeAttributes 2) kuW 2
    rfl rfl (by simp [TypeAttributeKind.makeAttributes])

theorem cppType_union_nullable (ns nm : String) (members : List Ty) (sole : Ty)
    (inJ wI : Bool) (h : nullableFromUnion members = some sole) :
    cppType ns (Ty.unionType nm members) inJ wI =
      "boost::optional<" ++ cppType ns sole inJ wI ++ ">" := by
  rw [cppType]
  split
  · rename_i nt hnt
    rw [hnt] at h
    cases h
    rfl
  · rename_i hnone
    rw [hnone] at h
    cases h

theorem variantType_ok (ns : String) (members : List Ty) (inJ : Bool)
    (hlen : 2 ≤ ((removeNullFromUnion members).2).length) :
    variantType ns members inJ =
      Except.ok (if (removeNullFromUnion members).1
        then "boost::optional<" ++
          ("boost::variant<" ++
            String.intercalate (", ")
              (((removeNullFromUnion members).2).map (fun t => cppType ns t inJ true)) ++
            ">") ++ ">"
        else "boost::variant<" ++
          String.intercalate (", ")
            (((removeNullFromUnion members).2).map (fun t => cppType ns t inJ true)) ++
          ">") := by
  have hnotlt : ¬(((removeNullFromUnion members).2).length < 2) := by omega
  unfold variantType
  rw [if_neg hnotlt]
  have hvar : cppTypeInOptional ns ((removeNullFromUnion members).2) inJ true =
      "boost::variant<" ++
        String.intercalate (", ")
          (((removeNullFromUnion members).2).map (fun t => cppType ns t inJ true)) ++
        ">" := by
    cases hm : (removeNullFromUnion members).2 with
    | nil =>
      rw [hm] at hlen
      simp at hlen
    | cons t ts =>
      cases hts : ts with
      | nil =>
        rw [hm, hts] at hlen
        simp at hlen
      | cons t2 ts2 =>
        rfl
  rw [hvar]
  cases hn : (removeNullFromUnion members).1
  · rfl
  · rfl

/-- C2: the union mapping rule.  One non-null member beside null maps to
boost::optional of the mapped sole member; two or more non-null members
make variantType produce boost::variant over the mapped members in
first-appearance order, wrapped in boost::optional when null is present;
and reaching variantType with fewer than two non-null members is the fatal
error thrown by the renderer. -/
theorem unionTypeMapping_spec (ns nm : String) (members : List Ty) (inJ wI : Bool) :
    (∀ sole, removeNullFromUnion members = (true, [sole]) →
      cppType ns (Ty.unionType nm members) inJ wI =
        "boost::optional<" ++ cppType ns sole inJ wI ++ ">") ∧
    (2 ≤ ((removeNullFromUnion members).2).length →
      variantType ns members inJ =
        Except.ok (if (removeNullFromUnion members).1
          then "boost::optional<" ++
            ("boost::variant<" ++
              String.intercalate (", ")
                (((removeNullFromUnion members).2).map (fun t => cppType ns t inJ true)) ++
              ">") ++ ">"
          else "boost::variant<" ++
            String.intercalate (", ")
              (((removeNullFromUnion members).2).map (fun t => cppType ns t inJ true)) ++
            ">")) ∧
    (((removeNullFromUnion members).2).length < 2 →
      variantType ns members inJ =
        Except.error ("Variant not needed for less than two types.")) := by
  refine ⟨?_, ?_, ?_⟩
  · intro sole h
    have h1 : members.any Ty.isNull = true := by
      have := congrArg Prod.fst h
      simpa [removeNullFromUnion] using this
    have h2 : members.filter (fun t => !t.isNull) = [sole] := by
      have := congrArg Prod.snd h
      simpa [removeNullFromUnion] using this
    have hnub : nullableFromUnion members = some sole := by
      unfold nullableFromUnion
      rw [h2, h1]
      simp
    exact cppType_union_nullable ns nm members sole inJ wI hnub
  · intro hlen
    exact variantType_ok ns members inJ hlen
  · intro hlen
    unfold variantType
    rw [if_pos hlen]

/-- Witness for C2 at three concrete unions: string-or-null, a two-member
variant with a null member, and a degenerate union with a single non-null
member reaching variantType. -/
theorem unionTypeMapping_spec_witness :
    (removeNullFromUnion membersOptW = (true, [Ty.stringType]) ∧
      cppType ("quicktype") (Ty.unionType ("u") membersOptW) false true =
        "boost::optional<" ++ cppType ("quicktype") Ty.stringType false true ++ ">") ∧
    (2 ≤ ((removeNullFromUnion (Ty.nullType :: membersVarW)).2).length ∧
      variantType ("quicktype") (Ty.nullType :: membersVarW) false =
        Except.ok ("boost::optional<" ++
          ("boost::variant<" ++
            String.intercalate (", ")
              (((removeNullFromUnion (Ty.nullType :: membersVarW)).2).map
                (fun t => cppType ("quicktype") t false true)) ++ ">") ++ ">")) ∧
    (((removeNullFromUnion membersOptW).2).length < 2 ∧
      variantType ("quicktype") membersOptW false =
        Except.error ("Variant not needed for less than two types.")) := by
  refine ⟨⟨rfl, ?_⟩, ⟨by decide, ?_⟩, ⟨by decide, ?_⟩⟩
  · exact (unionTypeMapping_spec ("quicktype") ("u") membersOptW false true).1
      Ty.stringType rfl
  · have h := (unionTypeMapping_spec ("quicktype") ("u") (Ty.nullType :: membersVarW)
      false true).2.1 (by decide)
    rw [h]
    rw [if_pos (by decide)]
  · exact (unionTypeMapping_spec ("quicktype") ("u") membersOptW false true).2.2
      (by decide)

theorem runBranches_filterMap (j : JValue) :
    ∀ (tbl : List (String × String)) (nonNulls : List Ty),
      runBranches (tbl.filterMap
        (fun kf => (nonNulls.find? (fun t => t.kind == kf.1)).map (fun t => (kf.2, t)))) j =
      (match tbl.find? (fun kf =>
          nonNulls.any (fun t => t.kind == kf.1) && testFunc kf.2 j) with
       | some kf =>
         (match nonNulls.find? (fun t => t.kind == kf.1) with
          | some t => Except.ok t
          | none => Except.error ("Could not deserialize"))
       | none => Except.error ("Could not deserialize")) := by
  intro tbl
  induction tbl with
  | nil => intro nonNulls; rfl
  | cons kf tbl ih =>
    intro nonNulls
    cases hfind : nonNulls.find? (fun t => t.kind == kf.1) with
    | none =>
      have hany : nonNulls.any (fun t => t.kind == kf.1) = false := by
        rw [List.any_eq_false]
        intro t ht
        have := List.find?_eq_none.mp hfind t ht
        simpa using this
      rw [List.filterMap_cons]
      rw [hfind]
      rw [List.find?_cons]
      rw [hany]
      simp only [Bool.false_and]
      exact ih nonNulls
    | some t =>
      have hps := List.find?_some hfind
      have hany : (nonNulls.any fun s => s.kind == kf.1) = true := by
        rw [List.any_eq_true]
        exact ⟨t, List.mem_of_find?_eq_some hfind, by simpa using hps⟩
      rw [List.filterMap_cons, hfind]
      rw [List.find?_cons]
      rw [hany]
      simp only [Bool.true_and, Option.map_some]
      show (if testFunc kf.2 j then Except.ok t
        else runBranches (tbl.filterMap
          (fun kf => (nonNulls.find? (fun t => t.kind == kf.1)).map
            (fun t => (kf.2, t)))) j) = _
      cases htest : testFunc kf.2 j with
      | true =>
        rw [if_pos rfl]
        simp only [hfind]
      | false =>
        rw [if_neg (by simp)]
        exact ih nonNulls

theorem specTable_eq :
    specPredicateTable = functionForKind.map (fun kf => (kf.1, fun j => testFunc kf.2 j)) := by
  have hb : (fun j => testFunc ("is_boolean") j) = JValue.isBoolean := by
    funext j; simp [testFunc]
  have hi : (fun j => testFunc ("is_number_integer") j) = JValue.isNumberInteger := by
    funext j; simp [testFunc]
  have hd : (fun j => testFunc ("is_number") j) = JValue.isNumber := by
    funext j; simp [testFunc]
  have hs : (fun j => testFunc ("is_string") j) = JValue.isString := by
    funext j; simp [testFunc]
  have ho : (fun j => testFunc ("is_object") j) = JValue.isObject := by
    funext j; simp [testFunc]
  have ha : (fun j => testFunc ("is_array") j) = JValue.isArray := by
    funext j; simp [testFunc]
  simp only [specPredicateTable, functionForKind, List.map_cons, List.map_nil,
    hb, hi, hd, hs, ho, ha]

theorem unionFromJsonSem_eq_spec (members : List Ty) (j : JValue) :
    unionFromJsonSem members j = specPriorityDecode members j := by
  unfold unionFromJsonSem specPriorityDecode unionDecodeBranches
  rw [runBranches_filterMap j functionForKind ((removeNullFromUnion members).2)]
  rw [specTable_eq, List.find?_map]
  have hpred : ((fun kp : String × (JValue → Bool) =>
      ((removeNullFromUnion members).2).any (fun t => t.kind == kp.1) && kp.2 j) ∘
        (fun kf : String × String => (kf.1, fun j2 => testFunc kf.2 j2))) =
      (fun kf : String × String =>
        ((removeNullFromUnion members).2).any (fun t => t.kind == kf.1) &&
          testFunc kf.2 j) := by
    funext kf
    rfl
  rw [hpred]
  cases hf : functionForKind.find? (fun kf =>
      ((removeNullFromUnion members).2).any (fun t => t.kind == kf.1) &&
        testFunc kf.2 j) with
  | none => rfl
  | some kf => rfl

theorem unionBranchFold (ns : String) (nonNulls : List Ty) :
    ∀ (tbl : List (String × String)) (acc : List String) (first : Bool),
      (tbl.foldl (unionBranchStep ns nonNulls) (acc, first)).1 =
        acc ++ branchIfChainLines ns first (tbl.filterMap
          (fun kf => (nonNulls.find? (fun t => t.kind == kf.1)).map (fun t => (kf.2, t)))) := by
  intro tbl
  induction tbl with
  | nil =>
    intro acc first
    simp [branchIfChainLines]
  | cons kf tbl ih =>
    intro acc first
    rw [List.foldl_cons, List.filterMap_cons]
    cases hfind : nonNulls.find? (fun t => t.kind == kf.1) with
    | none =>
      rw [show unionBranchStep ns nonNulls (acc, first) kf = (acc, first) from by
        unfold unionBranchStep; rw [hfind]]
      exact ih acc first
    | some t =>
      rw [show unionBranchStep ns nonNulls (acc, first) kf =
          (acc ++ [(if first then "if" else "else if") ++ " (_j." ++ kf.2 ++ "())",
            "_x = _j.get<" ++ cppType ns t true false ++ ">();"], false) from by
        unfold unionBranchStep; rw [hfind]]
      rw [ih]
      show _ = acc ++ branchIfChainLines ns first ((kf.2, t) :: _)
      rw [show branchIfChainLines ns first ((kf.2, t) :: (tbl.filterMap
          (fun kf => (nonNulls.find? (fun t => t.kind == kf.1)).map (fun t => (kf.2, t))))) =
          ((if first then "if" else "else if") ++ " (_j." ++ kf.2 ++ "())") ::
            ("_x = _j.get<" ++ cppType ns t true false ++ ">();") ::
            branchIfChainLines ns false (tbl.filterMap
              (fun kf => (nonNulls.find? (fun t => t.kind == kf.1)).map (fun t => (kf.2, t))))
        from rfl]
      simp

theorem runBranches_ok_mem {br : List (String × Ty)} {j : JValue} {t : Ty}
    (hok : runBranches br j = Except.ok t) :
    ∃ f, (f, t) ∈ br ∧ testFunc f j = true := by
  induction br with
  | nil => cases hok
  | cons b rest ih =>
    obtain ⟨f0, t0⟩ := b
    show ∃ f, (f, t) ∈ (f0, t0) :: rest ∧ testFunc f j = true
    have hok2 : (if testFunc f0 j then Except.ok t0 else runBranches rest j) =
        Except.ok t := hok
    cases htest : testFunc f0 j with
    | true =>
      rw [htest, if_pos rfl] at hok2
      cases hok2
      exact ⟨f0, List.mem_cons_self _ _, htest⟩
    | false =>
      rw [htest, if_neg (by simp)] at hok2
      obtain ⟨f, hmem, ht⟩ := ih hok2
      exact ⟨f, List.mem_cons_of_mem _ hmem, ht⟩

theorem unionDecode_object_class (members : List Ty) (kvs : List (String × JValue))
    (tc : Ty)
    (hfind : ((removeNullFromUnion members).2).find? (fun s => s.kind == ("class")) =
      some tc) :
    unionFromJsonSem members (JValue.jobject kvs) = Except.ok tc := by
  rw [unionFromJsonSem_eq_spec]
  unfold specPriorityDecode
  have hps := List.find?_some hfind
  have hany : ((removeNullFromUnion members).2).any
      (fun t => t.kind == ("class")) = true := by
    rw [List.any_eq_true]
    exact ⟨tc, List.mem_of_find?_eq_some hfind, by simpa using hps⟩
  simp only [specPredicateTable, List.find?_cons, JValue.isBoolean, JValue.isNumberInteger,
    JValue.isNumber, JValue.isString, JValue.isObject, Bool.and_false, hany, Bool.and_true]
  rw [hfind]

theorem unionDecode_array (members : List Ty) (xs : List JValue) (t : Ty)
    (hfind : ((removeNullFromUnion members).2).find? (fun s => s.kind == ("array")) =
      some t) :
    unionFromJsonSem members (JValue.jarray xs) = Except.ok t := by
  rw [unionFromJsonSem_eq_spec]
  unfold specPriorityDecode
  have hps := List.find?_some hfind
  have hany : ((removeNullFromUnion members).2).any
      (fun s => s.kind == ("array")) = true := by
    rw [List.any_eq_true]
    exact ⟨t, List.mem_of_find?_eq_some hfind, by simpa using hps⟩
  simp only [specPredicateTable, List.find?_cons, JValue.isBoolean, JValue.isNumberInteger,
    JValue.isNumber, JValue.isString, JValue.isObject, JValue.isArray, Bool.and_false,
    hany, Bool.and_true]
  rw [hfind]

/-- C4: the generated union from_json is the priority decode of the fixed
predicate table boolean, integer, double, string, object-as-class,
object-as-map, array: the emitted lines are the if/else chain over exactly
the table rows whose kinds occur among the non-null members, the runtime
semantics of that chain equals the spec's priority decode (first matching
predicate decodes, no match is the hard failure), and a JSON array always
selects the union's array alternative whatever the declared member
order. -/
theorem unionFromJson_priority_spec (ns : String) (members : List Ty) (j : JValue) :
    (unionFromJsonLines ns members =
      branchIfChainLines ns true (unionDecodeBranches ((removeNullFromUnion members).2)) ++
        ["else throw \"Could not deserialize\";"]) ∧
    (unionFromJsonSem members j = specPriorityDecode members j) ∧
    (∀ xs t, ((removeNullFromUnion members).2).find? (fun s => s.kind == ("array")) =
        some t →
      unionFromJsonSem members (JValue.jarray xs) = Except.ok t) := by
  refine ⟨?_, unionFromJsonSem_eq_spec members j, fun xs t h => unionDecode_array members xs t h⟩
  unfold unionFromJsonLines unionDecodeBranches
  rw [unionBranchFold ns ((removeNullFromUnion members).2) functionForKind [] true]
  rfl

/-- Witness for C4: the union of integer, array-of-bool and string (array
member declared in the middle) decodes a JSON array of booleans into the
array alternative. -/
theorem unionFromJson_priority_spec_witness :
    ((removeNullFromUnion membersArrW).2).find? (fun s => s.kind == ("array")) =
      some (Ty.arrayType Ty.boolType) ∧
    unionFromJsonSem membersArrW (JValue.jarray [JValue.jbool true]) =
      Except.ok (Ty.arrayType Ty.boolType) := by
  refine ⟨rfl, ?_⟩
  exact (unionFromJson_priority_spec ("quicktype") membersArrW
    (JValue.jarray [JValue.jbool true])).2.2 [JValue.jbool true]
    (Ty.arrayType Ty.boolType) rfl

/-- C10: the decoded alternative of a generated union from_json is always
the first member of its node kind in the member set; in particular, with a
class member present every JSON object decodes into the class alternative
(class precedes map in the predicate table and both test is_object), so a
map member never decodes. -/
theorem unionDecode_firstOfKind_spec (members : List Ty) (j : JValue) (t : Ty) :
    (unionFromJsonSem members j = Except.ok t →
      ((removeNullFromUnion members).2).find? (fun s => s.kind == t.kind) = some t) ∧
    (∀ kvs tc, ((removeNullFromUnion members).2).find? (fun s => s.kind == ("class")) =
        some tc →
      unionFromJsonSem members (JValue.jobject kvs) = Except.ok tc) ∧
    ((((removeNullFromUnion members).2).find?
        (fun s => s.kind == ("class"))).isSome = true →
      unionFromJsonSem members j = Except.ok t → ¬(t.kind = "map")) := by
  refine ⟨?_, fun kvs tc h => unionDecode_object_class members kvs tc h, ?_⟩
  · intro hok
    obtain ⟨f, hmem, htest⟩ := runBranches_ok_mem hok
    obtain ⟨kf, hkf, heq⟩ := List.mem_filterMap.mp hmem
    cases hfind : ((removeNullFromUnion members).2).find? (fun s => s.kind == kf.1) with
    | none => rw [hfind] at heq; cases heq
    | some t0 =>
      rw [hfind] at heq
      have heq2 : (kf.2, t0) = (f, t) := by simpa using heq
      have ht0 : t0 = t := congrArg Prod.snd heq2
      subst ht0
      have hps := List.find?_some hfind
      have hkind : t0.kind = kf.1 := by simpa using hps
      rw [hkind]
      exact hfind
  · intro hsome hok hmap
    obtain ⟨tc, hfc⟩ := Option.isSome_iff_exists.mp hsome
    obtain ⟨f, hmem, htest⟩ := runBranches_ok_mem hok
    obtain ⟨kf, hkf, heq⟩ := List.mem_filterMap.mp hmem
    cases hfind : ((removeNullFromUnion members).2).find? (fun s => s.kind == kf.1) with
    | none => rw [hfind] at heq; cases heq
    | some t0 =>
      rw [hfind] at heq
      have heq2 : (kf.2, t0) = (f, t) := by simpa using heq
      have ht0 : t0 = t := congrArg Prod.snd heq2
      have hf2 : kf.2 = f := congrArg Prod.fst heq2
      have hps := List.find?_some hfind
      have hkind : t.kind = kf.1 := by
        rw [← ht0]
        simpa using hps
      have hkf1 : kf.1 = "map" := by rw [← hkind, hmap]
      have hkf2 : kf.2 = "is_object" := by
        simp only [functionForKind, List.mem_cons, List.not_mem_nil, or_false] at hkf
        rcases hkf with h | h | h | h | h | h | h <;> subst h <;>
          first
            | rfl
            | (exact absurd hkf1 (by decide))
      have hobj : j.isObject = true := by
        rw [← hf2, hkf2] at htest
        simpa [testFunc] using htest
      cases j with
      | jobject kvs =>
        have := unionDecode_object_class members kvs tc hfc
        rw [hok] at this
        cases this
        have hck := List.find?_some hfc
        have hck2 : t.kind = "class" := by simpa using hck
        rw [hmap] at hck2
        exact absurd hck2 (by decide)
      | jnull => cases hobj
      | jbool b => cases hobj
      | jint n => cases hobj
      | jdouble => cases hobj
      | jstring s => cases hobj
      | jarray xs => cases hobj

/-- Witness for C10: a union of a class member and a map member decodes
the empty JSON object into the class alternative. -/
theorem unionDecode_firstOfKind_spec_witness :
    ((removeNullFromUnion membersCMW).2).find? (fun s => s.kind == ("class")) =
      some (Ty.classType ("c") []) ∧
    unionFromJsonSem membersCMW (JValue.jobject []) =
      Except.ok (Ty.classType ("c") []) := by
  refine ⟨rfl, ?_⟩
  exact (unionDecode_firstOfKind_spec membersCMW (JValue.jobject [])
    (Ty.classType ("c") [])).2.1 [] (Ty.classType ("c") []) rfl

theorem unionCaseFold (ns : String) :
    ∀ (ts : List Ty) (acc : List String) (i : Nat),
      (ts.foldl (unionCaseStep ns) (acc, i)).1 = acc ++ switchCasesFrom ns i ts := by
  intro ts
  induction ts with
  | nil =>
    intro acc i
    simp [switchCasesFrom]
  | cons t ts ih =>
    intro acc i
    rw [List.foldl_cons]
    show (ts.foldl (unionCaseStep ns)
      (acc ++ ["case " ++ toString i ++ ":",
        "_j = boost::get<" ++ cppType ns t true false ++ ">(_x);", "break;"], i + 1)).1 = _
    rw [ih]
    show _ = acc ++ (("case " ++ toString i ++ ":") ::
      ("_j = boost::get<" ++ cppType ns t true false ++ ">(_x);") :: "break;" ::
      switchCasesFrom ns (i + 1) ts)
    simp

/-- Counterexample for C5 as stated: the claim says the generated switch
has no default case, but the renderer emits a throwing default after the
member cases; for the two-member union of bool and string the emitted
switch body contains the default line. -/
theorem unionToJson_default_counterexample :
    ("default: throw \"This should not happen\";") ∈
      unionToJsonLines ("quicktype") membersVarW := by
  decide

/-- C5 as amended: the generated to_json dispatches on which() with case
ordinals assigned in the member-set order also used for the typedef's
variant (ordinal i re-encodes the i-th non-null member via boost::get),
every alternative has a covering case, and the case list is closed by a
default case that throws "This should not happen" (rather than having no
default case as the claim stated). -/
theorem unionToJson_switch_spec (ns : String) (members : List Ty) :
    (unionToJsonLines ns members =
      switchCasesFrom ns 0 ((removeNullFromUnion members).2) ++
        ["default: throw \"This should not happen\";"]) ∧
    (∀ nm, 2 ≤ ((removeNullFromUnion members).2).length →
      unionTypedefLine ns nm members =
        Except.ok ("typedef " ++
          (if (removeNullFromUnion members).1
            then "boost::optional<" ++
              ("boost::variant<" ++
                String.intercalate (", ")
                  (((removeNullFromUnion members).2).map
                    (fun t => cppType ns t false true)) ++
                ">") ++ ">"
            else "boost::variant<" ++
              String.intercalate (", ")
                (((removeNullFromUnion members).2).map
                  (fun t => cppType ns t false true)) ++
              ">") ++ " " ++ nm ++ ";")) := by
  constructor
  · unfold unionToJsonLines
    rw [unionCaseFold ns ((removeNullFromUnion members).2) [] 0]
    rfl
  · intro nm hlen
    unfold unionTypedefLine
    rw [variantType_ok ns members false hlen]
    rfl

/-- Witness for C5: the typedef of the bool-or-string union lists the two
alternatives in the same order the switch cases use. -/
theorem unionToJson_switch_spec_witness :
    2 ≤ ((removeNullFromUnion membersVarW).2).length ∧
    unionTypedefLine ("quicktype") ("u") membersVarW =
      Except.ok ("typedef " ++
        (if (removeNullFromUnion membersVarW).1
          then "boost::optional<" ++
            ("boost::variant<" ++
              String.intercalate (", ")
                (((removeNullFromUnion membersVarW).2).map
                  (fun t => cppType ("quicktype") t false true)) ++
              ">") ++ ">"
          else "boost::variant<" ++
            String.intercalate (", ")
              (((removeNullFromUnion membersVarW).2).map
                (fun t => cppType ("quicktype") t false true)) ++
            ">") ++ " " ++ ("u") ++ ";") := by
  refine ⟨by decide, ?_⟩
  exact (unionToJson_switch_spec ("quicktype") membersVarW).2 ("u") (by decide)

/-- C6: the generated class to_json yields the explicit empty JSON object
(never null, never an array) for a class without properties, and otherwise
an object pairing the source keys, in declared property order, with the
recursively encoded field values; the emitted object literal lists the
escaped keys in the same order. -/
theorem classToJson_spec (props : List (String × String × Ty)) (enc : String → JValue) :
    (∃ kvs, classToJsonSem props enc = JValue.jobject kvs ∧
      (props = [] → kvs = []) ∧
      kvs.map Prod.fst = props.map (fun p => p.2.1) ∧
      kvs.map Prod.snd = props.map (fun p => enc p.1)) ∧
    (classToJsonLines ([] : List (String × String × Ty)) = ["_j = json::object();"]) ∧
    (props ≠ [] →
      classToJsonLines props =
        ["_j = json" ++ "\x7b" ++
          String.intercalate (", ")
            (props.map (fun p =>
              "\x7b\"" ++ utf16StringEscape p.2.1 ++ "\", _x." ++ p.1 ++ "\x7d")) ++
          "\x7d;"]) := by
  refine ⟨?_, rfl, ?_⟩
  · cases props with
    | nil => exact ⟨[], rfl, fun _ => rfl, rfl, rfl⟩
    | cons p ps =>
      refine ⟨(p :: ps).map (fun p => (p.2.1, enc p.1)), ?_, ?_, ?_, ?_⟩
      · rfl
      · intro h
        cases h
      · simp
      · simp
  · intro hne
    unfold classToJsonLines
    rw [if_neg (by simpa using hne)]

/-- Witness for C6: a one-property class emits the object literal with its
escaped key. -/
theorem classToJson_spec_witness :
    propsStrictW ≠ [] ∧
    classToJsonLines propsStrictW =
      ["_j = json" ++ "\x7b" ++
        String.intercalate (", ")
          (propsStrictW.map (fun p =>
            "\x7b\"" ++ utf16StringEscape p.2.1 ++ "\", _x." ++ p.1 ++ "\x7d")) ++
        "\x7d;"] := by
  refine ⟨by simp [propsStrictW], ?_⟩
  exact (classToJson_spec propsStrictW (fun _ => JValue.jnull)).2.2
    (by simp [propsStrictW])

theorem classFromJsonSem_strict_missing (coerce : Ty → JValue → Except String JValue)
    (j : JValue) :
    ∀ props : List (String × String × Ty),
      (∃ p ∈ props, isPermissiveOptional p.2.2 = false ∧ isUntypedRead p.2.2 = false ∧
        j.objFind p.2.1 = none) →
      ∃ msg, classFromJsonSem coerce j props = Except.error msg := by
  intro props
  induction props with
  | nil =>
    rintro ⟨p, hmem, _⟩
    cases hmem
  | cons q qs ih =>
    rintro ⟨p, hmem, hperm, hunt, hmiss⟩
    cases hq : readProperty coerce j q.2.1 q.2.2 with
    | error msg =>
      refine ⟨msg, ?_⟩
      show (q :: qs).mapM (fun p => readProperty coerce j p.2.1 p.2.2) = Except.error msg
      rw [List.mapM_cons, hq, except_bind_err]
    | ok v =>
      rcases List.mem_cons.mp hmem with hpq | hpq
      · exfalso
        subst hpq
        have hread : readProperty coerce j p.2.1 p.2.2 =
            Except.error ("out_of_range: key not found") := by
          unfold readProperty
          rw [if_neg (by simp [hperm]), if_neg (by simp [hunt])]
          rw [show jsonAt j p.2.1 = Except.error ("out_of_range: key not found") from by
            unfold jsonAt; rw [hmiss]]
          rfl
        rw [hread] at hq
        cases hq
      · obtain ⟨msg, hqs⟩ := ih ⟨p, hpq, hperm, hunt, hmiss⟩
        refine ⟨msg, ?_⟩
        show (q :: qs).mapM (fun p => readProperty coerce j p.2.1 p.2.2) = Except.error msg
        rw [List.mapM_cons, hq, except_bind_ok]
        show (qs.mapM (fun p => readProperty coerce j p.2.1 p.2.2)) >>=
          (fun bs => pure (v :: bs)) = Except.error msg
        rw [show qs.mapM (fun p => readProperty coerce j p.2.1 p.2.2) =
          Except.error msg from hqs, except_bind_err]

/-- C3: the generated class from_json reads the properties in declared
order by their escaped keys; a union with a null member reads through
get_optional (a missing key yields the absent optional), an any/null
property reads through get_untyped (a missing key yields the empty json
value), and every other property reads strictly through
_j.at(key).get<T>(), where a missing key (or a failing coercion) is a hard
failure so the record decode aborts with no partial record. -/
theorem classFromJson_spec (ns nm json : String) (t : Ty) (un : String)
    (members : List Ty) (props : List (String × String × Ty)) (j : JValue)
    (coerce : Ty → JValue → Except String JValue) :
    (∀ p ps, classFromJsonLines ns (p :: ps) =
      classFromJsonLine ns p.1 p.2.1 p.2.2 :: classFromJsonLines ns ps) ∧
    ((removeNullFromUnion members).1 = true →
      classFromJsonLine ns nm json (Ty.unionType un members) =
        "_x." ++ nm ++ " = " ++ (ns ++ "::") ++ "get_optional<" ++
          cppTypeInOptional ns ((removeNullFromUnion members).2) true false ++
          ">(_j, \"" ++ utf16StringEscape json ++ "\");") ∧
    (isUntypedRead t = true →
      classFromJsonLine ns nm json t =
        "_x." ++ nm ++ " = " ++ (ns ++ "::") ++ "get_untyped(_j, \"" ++
          utf16StringEscape json ++ "\");") ∧
    (isPermissiveOptional t = false → isUntypedRead t = false →
      classFromJsonLine ns nm json t =
        "_x." ++ nm ++ " = _j.at(\"" ++ utf16StringEscape json ++ "\").get<" ++
          cppType ns t true false ++ ">();") ∧
    (j.objFind json = none →
      get_untyped j json = JValue.jnull ∧
      get_optional j json = none ∧
      jsonAt j json = Except.error ("out_of_range: key not found")) ∧
    ((∃ p ∈ props, isPermissiveOptional p.2.2 = false ∧ isUntypedRead p.2.2 = false ∧
        j.objFind p.2.1 = none) →
      ∃ msg, classFromJsonSem coerce j props = Except.error msg) := by
  refine ⟨fun p ps => rfl, ?_, ?_, ?_, ?_,
    classFromJsonSem_strict_missing coerce j props⟩
  · intro h
    unfold classFromJsonLine
    rw [if_pos (by simpa [isPermissiveOptional] using h)]
    rfl
  · intro h
    have hperm : isPermissiveOptional t = false := by
      cases t <;> simp_all [isPermissiveOptional, isUntypedRead, Ty.kind]
    unfold classFromJsonLine
    rw [if_neg (by simp [hperm]), if_pos h]
    rfl
  · intro hperm hunt
    unfold classFromJsonLine
    rw [if_neg (by simp [hperm]), if_neg (by simp [hunt])]
  · intro h
    refine ⟨?_, ?_, ?_⟩
    · unfold get_untyped
      rw [h]
    · unfold get_optional
      rw [h]
    · unfold jsonAt
      rw [h]

/-- Witness for C3: a class with one strictly read string property decoded
from an object missing its key aborts with an error. -/
theorem classFromJson_spec_witness :
    (∃ p ∈ propsStrictW, isPermissiveOptional p.2.2 = false ∧
      isUntypedRead p.2.2 = false ∧ (JValue.jobject []).objFind p.2.1 = none) ∧
    ∃ msg, classFromJsonSem coerceW (JValue.jobject []) propsStrictW =
      Except.error msg := by
  have hex : ∃ p ∈ propsStrictW, isPermissiveOptional p.2.2 = false ∧
      isUntypedRead p.2.2 = false ∧ (JValue.jobject []).objFind p.2.1 = none := by
    refine ⟨("f1", "k1", Ty.stringType), ?_, rfl, rfl, rfl⟩
    simp [propsStrictW]
  refine ⟨hex, ?_⟩
  exact (classFromJson_spec ("quicktype") ("f") ("k") Ty.stringType ("u") []
    propsStrictW (JValue.jobject []) coerceW).2.2.2.2.2 hex

/-- Witness for C9 at two concrete same-named kinds carrying different
combine functions. -/
theorem kindEquality_spec_witness :
    dkW.name = dkW3.name ∧
    dkW3.tryGetInAttributes (dkW.setInAttributes emptyTypeAttributes 7) = some 7 ∧
    dkW.hashCode = dkW3.hashCode ∧
    dkW.equals (JsObject.kindObj dkW3) = true ∧
    dkW.equals (JsObject.otherObj 0) = false := by
  have h := kindEquality_spec dkW dkW3 rfl
  exact ⟨rfl, h.1 emptyTypeAttributes 7, h.2.1, h.2.2.1, h.2.2.2 0⟩

end Quicktype
